import Mathlib

/-!
# dejavu-bq: replaying BigQuery rows as CloudEvents

A shallow embedding of `modules/cloudevent-recorder/cmd/dejavu-bq/main.go`.

The program talks to four collaborators whose code is not part of the
repository: the environment loader, the BigQuery client, `encoding/json`
and the CloudEvents client.  Their answers are the fields of `World`; the
control flow of `Publish` and `main` is translated line by line, and every
observable action (a log line, a call of `it.Next`, a call of `Publish`, a
`Send`) is appended to a trace.
-/

namespace DejavuBq

/-! ## Constants and configuration -/

/-- Nanoseconds, as Go's `time.Duration`. -/
abbrev Duration := Int

/-- One millisecond in nanoseconds: `time.Millisecond`. -/
def Millisecond : Duration := 1000000

/-- Source constant `retryDelay = 10 * time.Millisecond`. -/
def retryDelay : Duration := 10 * Millisecond

/-- Source constant `maxRetry = 3`. -/
def maxRetry : Int := 3

/-- The struct `envConfig` filled by `envconfig.Process`. -/
structure envConfig where
  Host : String
  Port : Int
  EventType : String
  EventSource : String
  Project : String
  Query : String
deriving DecidableEq, Repr

/-- Go `error` values as the program tells them apart: the sentinel
`iterator.Done` and every other error. -/
inductive GoError where
  | Done
  | other (msg : String)
deriving DecidableEq, Repr

/-! ## Rows and events -/

/-- A dynamically typed cell, `bigquery.Value`.  Of the floating point
numbers only the not-a-number value is kept, as the cell `json.Marshal`
cannot represent. -/
inductive Value where
  | null
  | bool (b : Bool)
  | int (i : Int)
  | nan
  | str (s : String)
  | arr (xs : List Value)
  | obj (fields : List (String × Value))

/-- The variable `row map[string]bigquery.Value`; `none` is the nil map the
declaration `var row` starts from. -/
abbrev Row := Option (List (String × Value))

/-- The bytes produced by `json.Marshal`, as text. -/
abbrev Body := String

/-- Media type constant `cloudevents.ApplicationJSON`. -/
def ApplicationJSON : String := "application/json"

/-- The attributes of `cloudevents.Event` that the program touches, under
their wire names. -/
structure Event where
  specversion : String
  type : String
  source : String
  id : String
  datacontenttype : Option String
  data : Option Body
deriving DecidableEq, Repr

/-- An empty version 1.0 event, `cloudevents.NewEvent()`. -/
def NewEvent : Event :=
  { specversion := "1.0", type := "", source := "", id := "",
    datacontenttype := none, data := none }

/-- White space as `unicode.IsSpace` of the Go standard library sees it. -/
def IsSpace (c : Char) : Bool :=
  (9 ≤ c.toNat && c.toNat ≤ 13) || c.toNat == 0x20 || c.toNat == 0x85 || c.toNat == 0xA0 ||
    c.toNat == 0x1680 || (0x2000 ≤ c.toNat && c.toNat ≤ 0x200A) || c.toNat == 0x2028 ||
    c.toNat == 0x2029 || c.toNat == 0x202F || c.toNat == 0x205F || c.toNat == 0x3000

/-- Function `strings.TrimSpace`: the string without its leading and
trailing white space. -/
def TrimSpace (s : String) : String :=
  String.mk ((s.data.dropWhile IsSpace).reverse.dropWhile IsSpace).reverse

/-- Setter `event.SetType(t)`: the SDK stores the type with its surrounding
white space trimmed. -/
def Event.SetType (e : Event) (t : String) : Event := { e with type := TrimSpace t }

/-- Setter `event.SetSource(s)`: the SDK parses `s` as a URI reference and
stores the normal form of what it parsed; when `s` does not parse, the
source is left as it was.  The parser is `parse`, which gives the normal
form of a reference it accepts. -/
def Event.SetSource (parse : String → Option String) (e : Event) (s : String) : Event :=
  match parse s with
  | some u => { e with source := u }
  | none => e

/-- Setter `event.SetData(contentType, body)` when it reports no error. -/
def Event.SetData (e : Event) (contentType : String) (body : Body) : Event :=
  { e with datacontenttype := some contentType, data := some body }

/-- The three classes of `cloudevents.Result` returned by `Send`. -/
inductive Result where
  | ACK
  | NACK
  | Undelivered
deriving DecidableEq, Repr

/-- Predicate `cloudevents.IsUndelivered`. -/
def IsUndelivered : Result → Bool
  | .Undelivered => true
  | _ => false

/-- Predicate `cloudevents.IsNACK`. -/
def IsNACK : Result → Bool
  | .NACK => true
  | _ => false

/-! ## Contexts -/

/-- Backoff strategies of the CloudEvents retry parameters. -/
inductive BackoffStrategy where
  | constant
  | linear
  | exponential
deriving DecidableEq, Repr

/-- The retry parameters a context can carry. -/
structure RetryParams where
  Strategy : BackoffStrategy
  Period : Duration
  MaxTries : Int
deriving DecidableEq, Repr

/-- Fields attached to a logger by `log.With`. -/
abbrev Logger := List (String × String)

/-- Keys under which a context carries values. -/
inductive Key where
  | retries
  | logger
  | user (name : String)
deriving DecidableEq, Repr

/-- Values a context carries. -/
inductive CtxValue where
  | retry (p : RetryParams)
  | logger (l : Logger)
  | user (v : String)
deriving DecidableEq, Repr

/-- The contexts the program builds: `context.Background()`,
`signal.NotifyContext(parent, os.Interrupt)`, `context.WithValue` and
`context.WithoutCancel`. -/
inductive Context where
  | Background
  | NotifyContext (parent : Context)
  | WithValue (parent : Context) (key : Key) (val : CtxValue)
  | WithoutCancel (parent : Context)
deriving DecidableEq, Repr

/-- Whether `ctx.Done()` is closed, given whether the interrupt signal has
been delivered. -/
def Context.Done (interrupted : Bool) : Context → Bool
  | .Background => false
  | .NotifyContext p => interrupted || p.Done interrupted
  | .WithValue p _ _ => p.Done interrupted
  | .WithoutCancel _ => false

/-- Lookup `ctx.Value(key)`. -/
def Context.Value : Context → Key → Option CtxValue
  | .Background, _ => none
  | .NotifyContext p, k => p.Value k
  | .WithValue p key v, k => if k = key then some v else p.Value k
  | .WithoutCancel p, k => p.Value k

/-- The SDK helper `cloudevents.ContextWithRetriesExponentialBackoff`: it
stores the retry parameters in the context. -/
def ContextWithRetriesExponentialBackoff (ctx : Context) (delay : Duration)
    (maxTries : Int) : Context :=
  .WithValue ctx .retries
    (.retry { Strategy := .exponential, Period := delay, MaxTries := maxTries })

/-- The logger of a context, `clog.FromContext(ctx)`: the one stored in it,
or the default logger without fields. -/
def FromContext (ctx : Context) : Logger :=
  match ctx.Value .logger with
  | some (.logger l) => l
  | _ => []

/-! ## Observable actions -/

/-- Log levels used by the program. -/
inductive Level where
  | debug
  | info
  | error
  | fatal
deriving DecidableEq, Repr

/-- The log lines of the program, one constructor per format string. -/
inductive LogMsg where
  | failedProcessEnv (err : GoError)
  | failedCreateBigqueryClient (err : GoError)
  | query (q : String)
  | failedRunQuery (err : GoError)
  | failedReadRow (err : GoError)
  | row (r : Row)
  | body (b : Body)
  | forwardingEvent (eventType : String)
  | marshalingRow (err : GoError)
  | failedSetData (err : GoError)
  | failedCreateCloudeventsClient (err : GoError)
  | failedDeliver (result : Result)

/-- One observable action of a run.  `next` and `publish` record whether
the run's context was already cancelled when the call was made; `send`
records the retry context and whether that context was cancelled. -/
inductive Effect where
  | log (logger : Logger) (level : Level) (msg : LogMsg)
  | next (k : Nat) (ctxDone : Bool) (err : Option GoError) (row : Row)
  | publish (ctxDone : Bool) (event : Event)
  | send (rctx : Context) (rctxDone : Bool) (event : Event) (result : Result)
  | close
  | cancel

/-- How a run ends: `main` returns, the process exits through `Fatalf`, or
the loop is still running when the fuel is spent. -/
inductive Outcome where
  | returned
  | fatal
  | running
deriving DecidableEq, Repr

/-- Exit status of the process: 0 on return, 1 after `Fatalf`. -/
def Outcome.exitCode : Outcome → Option Nat
  | .returned => some 0
  | .fatal => some 1
  | .running => none

/-- A run: what was done, and how it ended. -/
structure Run where
  trace : List Effect
  outcome : Outcome

/-- The collaborators of one run. -/
structure World where
  /-- Outcome of `envconfig.Process("", &env)`. -/
  processEnv : Except GoError envConfig
  /-- Error of `bigquery.NewClient(ctx, env.Project)`, if any. -/
  newClient : Option GoError
  /-- Error of `q.Read(ctx)`, if any. -/
  read : Option GoError
  /-- The k-th call `it.Next(&row)`: the error returned and the row left in
  the destination. -/
  next : Nat → Option GoError × Row
  /-- Function `json.Marshal(row)`. -/
  marshal : Row → Except GoError Body
  /-- The URI reference parser behind `event.SetSource` (`url.Parse`): the
  normal form of a reference it accepts, `none` for a string it refuses. -/
  parseURIRef : String → Option String
  /-- Error of `event.SetData(contentType, body)`, if any. -/
  setData : String → Body → Option GoError
  /-- Error of `cloudevents.NewClientHTTP` for a target, if any. -/
  newClientHTTP : String → Option GoError
  /-- Result of `ceclient.Send(rctx, event)` in the k-th iteration; the
  boolean says whether `rctx` is cancelled. -/
  send : Nat → Context → Bool → Event → Result
  /-- Whether the interrupt signal has been delivered when the k-th
  iteration runs. -/
  interrupted : Nat → Bool

/-! ## The program -/

/-- Function `Publish(ctx, env, event)`.  The result is `none` when the
process exits inside (`log.Fatalf`), and `some err` with the returned
error otherwise. -/
def Publish (w : World) (k : Nat) (interrupted : Bool) (ctx : Context)
    (env : envConfig) (event : Event) : List Effect × Option (Option GoError) :=
  let log := FromContext ctx
  match w.newClientHTTP (env.Host ++ ":" ++ toString env.Port) with
  | some err => ([.log log .fatal (.failedCreateCloudeventsClient err)], none)
  | none =>
    let rctx := ContextWithRetriesExponentialBackoff (.WithoutCancel ctx) retryDelay maxRetry
    let ceresult := w.send k rctx (rctx.Done interrupted) event
    let sent := Effect.send rctx (rctx.Done interrupted) event ceresult
    if IsUndelivered ceresult || IsNACK ceresult then
      ([sent, .log log .error (.failedDeliver ceresult)], some none)
    else
      ([sent], some none)

/-- The statement `if err != nil { log.Errorf("failed to read row, %v", err) }`
of the loop body. -/
def readLog (log : Logger) : Option GoError → List Effect
  | some e => [.log log .error (.failedReadRow e)]
  | none => []

/-- How one pass through the body of the loop ends. -/
inductive Step where
  | brk
  | fatal
  | continue (log : Logger)

/-- One pass through the body of the `for` loop of `main`, for the k-th
pull, with the current logger. -/
def iteration (w : World) (env : envConfig) (ctx : Context) (k : Nat)
    (log : Logger) : List Effect × Step :=
  let interrupted := w.interrupted k
  let err := (w.next k).1
  let row := (w.next k).2
  let pulled := Effect.next k (ctx.Done interrupted) err row
  if err = some GoError.Done then
    ([pulled], .brk)
  else
    let t1 := pulled :: readLog log err ++ [.log log .info (.row row)]
    match w.marshal row with
    | .error e => (t1 ++ [.log log .fatal (.marshalingRow e)], .fatal)
    | .ok body =>
      let log2 := log ++ [("event-type", env.EventType)]
      let t2 := t1 ++ [.log log .info (.body body),
        .log log2 .debug (.forwardingEvent env.EventType)]
      let event := Event.SetSource w.parseURIRef (NewEvent.SetType env.EventType) env.EventSource
      match w.setData ApplicationJSON body with
      | some e => (t2 ++ [.log log2 .fatal (.failedSetData e)], .fatal)
      | none =>
        let event := event.SetData ApplicationJSON body
        let called := Effect.publish (ctx.Done interrupted) event
        match Publish w k interrupted ctx env event with
        | (pt, none) => (t2 ++ called :: pt, .fatal)
        | (pt, some _) => (t2 ++ called :: pt, .continue log2)

/-- The `for` loop of `main`, from the k-th pull on. -/
def loop (w : World) (env : envConfig) (ctx : Context) : Nat → Nat → Logger → Run
  | 0, _, _ => ⟨[], .running⟩
  | fuel + 1, k, log =>
    match iteration w env ctx k log with
    | (t, .brk) => ⟨t, .returned⟩
    | (t, .fatal) => ⟨t, .fatal⟩
    | (t, .continue log2) =>
      let rest := loop w env ctx fuel (k + 1) log2
      ⟨t ++ rest.trace, rest.outcome⟩

/-- Function `main`.  On a normal return the deferred `client.Close()` and
`cancel()` run; `Fatalf` exits without them. -/
def main (w : World) (fuel : Nat) : Run :=
  match w.processEnv with
  | .error err => ⟨[.log [] .fatal (.failedProcessEnv err)], .fatal⟩
  | .ok env =>
    let ctx := Context.NotifyContext .Background
    let log := FromContext ctx
    match w.newClient with
    | some err => ⟨[.log log .fatal (.failedCreateBigqueryClient err)], .fatal⟩
    | none =>
      match w.read with
      | some err =>
        ⟨[.log log .error (.query env.Query), .log log .fatal (.failedRunQuery err)], .fatal⟩
      | none =>
        let r := loop w env ctx fuel 0 log
        match r.outcome with
        | .returned => ⟨r.trace ++ [.close, .cancel], .returned⟩
        | o => ⟨r.trace, o⟩

/-! ## Observers of a trace -/

/-- The pull an action records, if it is a call of `it.Next`: pull index,
returned error, row. -/
def Effect.pull? : Effect → Option (Nat × Option GoError × Row)
  | .next k _ err row => some (k, err, row)
  | _ => none

/-- The event an action hands to `Publish`, if it is such a call. -/
def Effect.published? : Effect → Option Event
  | .publish _ event => some event
  | _ => none

/-- The event and result of an action, if it is a `Send`. -/
def Effect.sent? : Effect → Option (Event × Result)
  | .send _ _ event result => some (event, result)
  | _ => none

/-- The pull index of an action, if it is a call of `it.Next` made while
the run's context was already cancelled. -/
def Effect.pullAfterCancel? : Effect → Option Nat
  | .next k true _ _ => some k
  | _ => none

/-- The calls of `it.Next` in a trace, in order. -/
def pulls (t : List Effect) : List (Nat × Option GoError × Row) :=
  t.filterMap Effect.pull?

/-- The events handed to `Publish` in a trace, in call order. -/
def published (t : List Effect) : List Event :=
  t.filterMap Effect.published?

/-- The events handed to `Send` in a trace, with the result of each. -/
def sent (t : List Effect) : List (Event × Result) :=
  t.filterMap Effect.sent?

/-- The pulls of a trace made while the run's context was cancelled. -/
def pullsAfterCancel (t : List Effect) : List Nat :=
  t.filterMap Effect.pullAfterCancel?

/-- Whether an action is a call of `it.Next`, of `Publish` or of `Send`. -/
def Effect.isWork : Effect → Bool
  | .next _ _ _ _ => true
  | .publish _ _ => true
  | .send _ _ _ _ => true
  | _ => false

/-- Whether an action is a call of `it.Next`. -/
def Effect.isPull : Effect → Bool
  | .next _ _ _ _ => true
  | _ => false

/-! ## Sample runs -/

/-- The defaults of `envConfig`, with a project and a query. -/
def sampleEnv : envConfig :=
  { Host := "http://0.0.0.0", Port := 8080,
    EventType := "dev.chainguard.not_specified.not_specified",
    EventSource := "github.com", Project := "sample-project",
    Query := "SELECT a FROM t" }

/-- A stand-in for `json.Marshal` on the rows of the sample runs: the nil
map, the empty map and a single integer column are rendered; any other
row is refused. -/
def sampleMarshal : Row → Except GoError Body
  | none => .ok "null"
  | some [] => .ok "\x7b\x7d"
  | some [(c, .int i)] => .ok ("\x7b\"" ++ c ++ "\":" ++ toString i ++ "\x7d")
  | _ => .error (.other "json: unsupported value")

/-- The row with the single column `a` holding an integer. -/
def rowA (i : Int) : Row := some [("a", .int i)]

/-- A row that cannot be serialized: its column holds a not-a-number. -/
def rowBad : Row := some [("a", .nan)]

/-- A stand-in for the URI reference parser on the sources of the sample
runs: `%zz` is refused as a bad escape, any other sample source is taken
to be in normal form already. -/
def sampleParseURIRef (s : String) : Option String :=
  if s = "%zz" then none else some s

/-- A reader that plays a script and then reports `iterator.Done`. -/
def scriptNext (script : List (Option GoError × Row)) (k : Nat) : Option GoError × Row :=
  script.getD k (some .Done, none)

/-- A run in which start-up succeeds, the reader plays `script`, the sink
answers every send with `result` and the interrupt arrives as `sig` says. -/
def sampleWorld (script : List (Option GoError × Row)) (result : Result)
    (sig : Nat → Bool) : World :=
  { processEnv := .ok sampleEnv
    newClient := none
    read := none
    next := scriptNext script
    marshal := sampleMarshal
    parseURIRef := sampleParseURIRef
    setData := fun _ _ => none
    newClientHTTP := fun _ => none
    send := fun _ _ _ _ => result
    interrupted := sig }

/-- The event `main` builds from the sample configuration for a body. -/
def sampleEvent (body : Body) : Event :=
  { specversion := "1.0", type := "dev.chainguard.not_specified.not_specified",
    source := "github.com", id := "", datacontenttype := some "application/json",
    data := some body }

/-! ## Names for the pieces of a trace -/

/-- The envelope the program builds for a serialized row: a new event on
which the type, the source and the data are set in turn. -/
def envelope (w : World) (env : envConfig) (body : Body) : Event :=
  (Event.SetSource w.parseURIRef (NewEvent.SetType env.EventType) env.EventSource).SetData
    ApplicationJSON body

/-- The action recording the k-th call of `it.Next` under a context. -/
def pulled (w : World) (ctx : Context) (k : Nat) : Effect :=
  .next k (ctx.Done (w.interrupted k)) (w.next k).1 (w.next k).2

/-- The log lines of a pass up to the call of `json.Marshal`. -/
def rowLogs (w : World) (k : Nat) (log : Logger) : List Effect :=
  readLog log (w.next k).1 ++ [.log log .info (.row (w.next k).2)]

/-- The log lines of a pass between `json.Marshal` and `SetData`. -/
def bodyLogs (env : envConfig) (log : Logger) (body : Body) : List Effect :=
  [.log log .info (.body body),
   .log (log ++ [("event-type", env.EventType)]) .debug (.forwardingEvent env.EventType)]

/-- The target address `Publish` hands to the CloudEvents client. -/
def target (env : envConfig) : String := env.Host ++ ":" ++ toString env.Port

/-- The retry context `Publish` hands to `Send`. -/
def retryContext (ctx : Context) : Context :=
  ContextWithRetriesExponentialBackoff (.WithoutCancel ctx) retryDelay maxRetry

/-! ## Summaries used in the proofs -/

/-- The trace and outcome of `main` once start-up has succeeded. -/
def finish (r : Run) : Run :=
  match r.outcome with
  | .returned => ⟨r.trace ++ [.close, .cancel], .returned⟩
  | o => ⟨r.trace, o⟩

/-- What one pass pulls, publishes and how it ends, in terms of the
collaborators' answers other than the sink's. -/
def passSummary (w : World) (env : envConfig) (k : Nat) (log : Logger) :
    List (Nat × Option GoError × Row) × List Event × Step :=
  if (w.next k).1 = some .Done then ([(k, (w.next k).1, (w.next k).2)], [], .brk)
  else
    match w.marshal (w.next k).2 with
    | .error _ => ([(k, (w.next k).1, (w.next k).2)], [], .fatal)
    | .ok body =>
      match w.setData ApplicationJSON body with
      | some _ => ([(k, (w.next k).1, (w.next k).2)], [], .fatal)
      | none =>
        ([(k, (w.next k).1, (w.next k).2)], [envelope w env body],
          match w.newClientHTTP (target env) with
          | some _ => .fatal
          | none => .continue (log ++ [("event-type", env.EventType)]))

/-! ## Further sample runs -/

/-- A run whose query is rejected. -/
def queryFailureWorld : World :=
  { sampleWorld [(none, rowA 1)] .ACK (fun _ => false) with
    read := some (.other "invalid query") }

/-- A cancelled run context that carries a logger. -/
def cancelledContext : Context :=
  .WithValue (.NotifyContext .Background) .logger (.logger [("run", "replay")])

/-- The run of scenario A: three rows, every send acknowledged. -/
def scenarioA : World :=
  sampleWorld [(none, rowA 1), (none, rowA 2), (none, rowA 3)] .ACK (fun _ => false)

/-- A run with two rows whose configured host is `:`, so that the sink
address `::8080` cannot be parsed as a URL and no client is built for it. -/
def badTargetWorld : World :=
  { sampleWorld [(none, rowA 1), (none, rowA 2)] .ACK (fun _ => false) with
    processEnv := .ok { sampleEnv with Host := ":" }
    newClientHTTP := fun t =>
      if t = "::8080" then some (.other "http target option failed to parse target url")
      else none }

/-- A run with two rows in which the interrupt arrives before the first
pull. -/
def interruptedWorld : World :=
  sampleWorld [(none, rowA 1), (none, rowA 2)] .ACK (fun _ => true)

/-- A run whose first pull fails and leaves the row nil. -/
def readErrorWorld : World :=
  sampleWorld [(some (.other "read failed"), none)] .ACK (fun _ => false)

/-- The run of scenario B: one row, whose send comes back classified as
undelivered. -/
def scenarioB : World :=
  sampleWorld [(none, rowA 1)] .Undelivered (fun _ => false)

/-- A run whose second row cannot be serialized. -/
def badRowWorld : World :=
  sampleWorld [(none, rowA 1), (none, rowBad), (none, rowA 3)] .ACK (fun _ => false)

/-- A run with one row whose configured event type has surrounding blanks
and whose configured source `%zz` is no URI reference. -/
def spacedTypeWorld : World :=
  { sampleWorld [(none, rowA 1)] .ACK (fun _ => false) with
    processEnv := .ok { sampleEnv with EventType := " spaced.type ", EventSource := "%zz" } }

/-- A run in which the interrupt arrives after the first pull and the
reader, whose context is then cancelled, answers every later pull with the
error `context canceled` and leaves the row nil. -/
def cancelledReaderWorld : World :=
  { sampleWorld [] .ACK (fun k => decide (1 ≤ k)) with
    next := fun k =>
      if k = 0 then (none, rowA 1) else (some (.other "context canceled"), none) }

/-- A run with a single row. -/
def oneRowWorld : World :=
  sampleWorld [(none, rowA 1)] .ACK (fun _ => false)

/-! # Properties -/

/-! ## Lemmas on `Publish` -/

theorem retryContext_done (ctx : Context) (s : Bool) : (retryContext ctx).Done s = false := rfl

theorem readLog_isWork (log : Logger) (err : Option GoError) :
    ∀ x ∈ readLog log err, Effect.isWork x = false := by
  intro x hx
  cases err <;> simp [readLog] at hx
  subst hx; rfl

theorem rowLogs_isWork (w : World) (k : Nat) (log : Logger) :
    ∀ x ∈ rowLogs w k log, Effect.isWork x = false := by
  intro x hx
  simp only [rowLogs, List.mem_append, List.mem_singleton] at hx
  rcases hx with hx | rfl
  · exact readLog_isWork _ _ x hx
  · rfl

theorem bodyLogs_isWork (env : envConfig) (log : Logger) (body : Body) :
    ∀ x ∈ bodyLogs env log body, Effect.isWork x = false := by
  intro x hx
  simp only [bodyLogs, List.mem_cons, List.mem_singleton, List.not_mem_nil, or_false] at hx
  rcases hx with rfl | rfl <;> rfl

/-- When the client cannot be built, `Publish` logs and exits. -/
theorem publish_client_error (w : World) (k : Nat) (interrupted : Bool) (ctx : Context)
    (env : envConfig) (event : Event) (err : GoError)
    (h : w.newClientHTTP (target env) = some err) :
    Publish w k interrupted ctx env event =
      ([.log (FromContext ctx) .fatal (.failedCreateCloudeventsClient err)], none) := by
  simp only [target] at h
  simp [Publish, h]

/-- When the client is built, `Publish` sends once under the retry context,
logs a failed delivery, and returns nil. -/
theorem publish_client_ok (w : World) (k : Nat) (interrupted : Bool) (ctx : Context)
    (env : envConfig) (event : Event)
    (h : w.newClientHTTP (target env) = none) :
    ∃ logs, (∀ x ∈ logs, Effect.isWork x = false) ∧
      Publish w k interrupted ctx env event =
        (.send (retryContext ctx) false event (w.send k (retryContext ctx) false event) :: logs,
         some none) := by
  simp only [target] at h
  by_cases hr : (IsUndelivered (w.send k (retryContext ctx) false event) ||
      IsNACK (w.send k (retryContext ctx) false event)) = true
  · refine ⟨[.log (FromContext ctx) .error (.failedDeliver
      (w.send k (retryContext ctx) false event))], ?_, ?_⟩
    · simp [Effect.isWork]
    · simp only [retryContext, Publish, h, ContextWithRetriesExponentialBackoff,
        Context.Done] at hr ⊢
      simp [hr]
  · refine ⟨[], by simp, ?_⟩
    simp only [retryContext, Publish, h, ContextWithRetriesExponentialBackoff,
      Context.Done] at hr ⊢
    simp [hr]

/-! ## Lemmas on one pass through the loop -/

theorem envelope_eq (w : World) (env : envConfig) (body : Body) :
    (Event.SetSource w.parseURIRef (NewEvent.SetType env.EventType) env.EventSource).SetData
      ApplicationJSON body = envelope w env body := rfl

/-- The fields of the envelope: the trimmed type, the parsed source or the
empty source of a new event, the JSON media type and the body. -/
theorem envelope_fields (w : World) (env : envConfig) (body : Body) :
    envelope w env body =
      { specversion := "1.0", type := TrimSpace env.EventType,
        source := (match w.parseURIRef env.EventSource with
          | some u => u
          | none => ""),
        id := "", datacontenttype := some "application/json", data := some body } := by
  cases h : w.parseURIRef env.EventSource <;>
    simp [envelope, Event.SetSource, Event.SetType, Event.SetData, NewEvent, ApplicationJSON, h]

theorem iteration_done (w : World) (env : envConfig) (ctx : Context) (k : Nat)
    (log : Logger) (hd : (w.next k).1 = some .Done) :
    iteration w env ctx k log = ([pulled w ctx k], .brk) := by
  simp [iteration, hd, pulled]

theorem iteration_marshal_error (w : World) (env : envConfig) (ctx : Context) (k : Nat)
    (log : Logger) (e : GoError) (hd : (w.next k).1 ≠ some .Done)
    (hm : w.marshal (w.next k).2 = .error e) :
    iteration w env ctx k log =
      (pulled w ctx k :: rowLogs w k log ++ [.log log .fatal (.marshalingRow e)], .fatal) := by
  simp only [iteration, hd, hm, pulled, if_false, rowLogs]
  rfl

theorem iteration_setData_error (w : World) (env : envConfig) (ctx : Context) (k : Nat)
    (log : Logger) (body : Body) (e : GoError) (hd : (w.next k).1 ≠ some .Done)
    (hm : w.marshal (w.next k).2 = .ok body) (hs : w.setData ApplicationJSON body = some e) :
    iteration w env ctx k log =
      (pulled w ctx k :: rowLogs w k log ++ bodyLogs env log body ++
        [.log (log ++ [("event-type", env.EventType)]) .fatal (.failedSetData e)], .fatal) := by
  simp only [iteration, hd, hm, hs, pulled, if_false, rowLogs, bodyLogs]
  simp

theorem iteration_publish (w : World) (env : envConfig) (ctx : Context) (k : Nat)
    (log : Logger) (body : Body) (hd : (w.next k).1 ≠ some .Done)
    (hm : w.marshal (w.next k).2 = .ok body) (hs : w.setData ApplicationJSON body = none) :
    iteration w env ctx k log =
      (pulled w ctx k :: rowLogs w k log ++ bodyLogs env log body ++
        Effect.publish (ctx.Done (w.interrupted k)) (envelope w env body) ::
        (Publish w k (w.interrupted k) ctx env (envelope w env body)).1,
       match (Publish w k (w.interrupted k) ctx env (envelope w env body)).2 with
       | none => .fatal
       | some _ => .continue (log ++ [("event-type", env.EventType)])) := by
  simp only [iteration, hd, hm, hs, pulled, if_false, envelope_eq, rowLogs, bodyLogs]
  rcases hP : Publish w k (w.interrupted k) ctx env (envelope w env body) with ⟨pt, _ | r⟩ <;> simp

theorem publish_no_pull (w : World) (k : Nat) (interrupted : Bool) (ctx : Context)
    (env : envConfig) (event : Event) :
    ∀ y ∈ (Publish w k interrupted ctx env event).1, Effect.isPull y = false := by
  intro y hy
  cases hc : w.newClientHTTP (target env) with
  | some err =>
    rw [publish_client_error w k interrupted ctx env event err hc] at hy
    simp only [List.mem_singleton] at hy
    subst hy; rfl
  | none =>
    obtain ⟨logs, hlogs, hP⟩ := publish_client_ok w k interrupted ctx env event hc
    rw [hP] at hy
    simp only [List.mem_cons] at hy
    rcases hy with rfl | hy
    · rfl
    · have := hlogs y hy
      cases y <;> simp_all [Effect.isWork, Effect.isPull]

theorem isPull_of_isWork {y : Effect} (h : Effect.isWork y = false) :
    Effect.isPull y = false := by
  cases y <;> simp_all [Effect.isWork, Effect.isPull]

/-- The trace of a pass starts with its pull and holds no other pull. -/
theorem iteration_shape (w : World) (env : envConfig) (ctx : Context) (k : Nat)
    (log : Logger) :
    ∃ tail, (iteration w env ctx k log).1 = pulled w ctx k :: tail ∧
      ∀ y ∈ tail, Effect.isPull y = false := by
  by_cases hd : (w.next k).1 = some .Done
  · exact ⟨[], by rw [iteration_done w env ctx k log hd], by simp⟩
  · cases hm : w.marshal (w.next k).2 with
    | error e =>
      refine ⟨rowLogs w k log ++ [.log log .fatal (.marshalingRow e)],
        by rw [iteration_marshal_error w env ctx k log e hd hm]; rfl, ?_⟩
      intro y hy
      simp only [List.mem_append, List.mem_singleton] at hy
      rcases hy with hy | rfl
      · exact isPull_of_isWork (rowLogs_isWork _ _ _ y hy)
      · rfl
    | ok body =>
      cases hs : w.setData ApplicationJSON body with
      | some e =>
        refine ⟨rowLogs w k log ++ bodyLogs env log body ++
          [.log (log ++ [("event-type", env.EventType)]) .fatal (.failedSetData e)],
          by rw [iteration_setData_error w env ctx k log body e hd hm hs]; rfl, ?_⟩
        intro y hy
        simp only [List.mem_append, List.mem_singleton] at hy
        rcases hy with (hy | hy) | rfl
        · exact isPull_of_isWork (rowLogs_isWork _ _ _ y hy)
        · exact isPull_of_isWork (bodyLogs_isWork _ _ _ y hy)
        · rfl
      | none =>
        refine ⟨rowLogs w k log ++ bodyLogs env log body ++
          Effect.publish (ctx.Done (w.interrupted k)) (envelope w env body) ::
          (Publish w k (w.interrupted k) ctx env (envelope w env body)).1,
          by rw [iteration_publish w env ctx k log body hd hm hs]; rfl, ?_⟩
        intro y hy
        simp only [List.mem_append, List.mem_cons] at hy
        rcases hy with (hy | hy) | rfl | hy
        · exact isPull_of_isWork (rowLogs_isWork _ _ _ y hy)
        · exact isPull_of_isWork (bodyLogs_isWork _ _ _ y hy)
        · rfl
        · exact publish_no_pull _ _ _ _ _ _ y hy

/-- A pass leaves the loop through `break` exactly when `it.Next` reports
`iterator.Done`. -/
theorem iteration_brk_iff (w : World) (env : envConfig) (ctx : Context) (k : Nat)
    (log : Logger) :
    (iteration w env ctx k log).2 = .brk ↔ (w.next k).1 = some .Done := by
  constructor
  · intro h
    by_contra hd
    cases hm : w.marshal (w.next k).2 with
    | error e => rw [iteration_marshal_error w env ctx k log e hd hm] at h; cases h
    | ok body =>
      cases hs : w.setData ApplicationJSON body with
      | some e => rw [iteration_setData_error w env ctx k log body e hd hm hs] at h; cases h
      | none =>
        rw [iteration_publish w env ctx k log body hd hm hs] at h
        cases hP : (Publish w k (w.interrupted k) ctx env (envelope w env body)).2 <;>
          simp [hP] at h
  · intro hd
    rw [iteration_done w env ctx k log hd]

theorem loop_zero (w : World) (env : envConfig) (ctx : Context) (k : Nat) (log : Logger) :
    loop w env ctx 0 k log = ⟨[], .running⟩ := rfl

theorem loop_brk (w : World) (env : envConfig) (ctx : Context) (fuel k : Nat)
    (log : Logger) (h : (iteration w env ctx k log).2 = .brk) :
    loop w env ctx (fuel + 1) k log = ⟨(iteration w env ctx k log).1, .returned⟩ := by
  rcases hi : iteration w env ctx k log with ⟨t, s⟩
  rw [hi] at h
  simp only at h
  subst h
  simp [loop, hi]

theorem loop_fatal (w : World) (env : envConfig) (ctx : Context) (fuel k : Nat)
    (log : Logger) (h : (iteration w env ctx k log).2 = .fatal) :
    loop w env ctx (fuel + 1) k log = ⟨(iteration w env ctx k log).1, .fatal⟩ := by
  rcases hi : iteration w env ctx k log with ⟨t, s⟩
  rw [hi] at h
  simp only at h
  subst h
  simp [loop, hi]

theorem loop_continue (w : World) (env : envConfig) (ctx : Context) (fuel k : Nat)
    (log log2 : Logger) (h : (iteration w env ctx k log).2 = .continue log2) :
    loop w env ctx (fuel + 1) k log =
      ⟨(iteration w env ctx k log).1 ++ (loop w env ctx fuel (k + 1) log2).trace,
       (loop w env ctx fuel (k + 1) log2).outcome⟩ := by
  rcases hi : iteration w env ctx k log with ⟨t, s⟩
  rw [hi] at h
  simp only at h
  subst h
  simp [loop, hi]

/-- Once `it.Next` has reported `iterator.Done`, the loop does nothing more
and is left by `break`. -/
theorem loop_after_done (w : World) (env : envConfig) (ctx : Context) :
    ∀ (fuel k : Nat) (log : Logger) (pre post : List Effect) (j : Nat) (d : Bool) (row : Row),
      (loop w env ctx fuel k log).trace = pre ++ Effect.next j d (some .Done) row :: post →
      post = [] ∧ (loop w env ctx fuel k log).outcome = .returned := by
  intro fuel
  induction fuel with
  | zero =>
    intro k log pre post j d row h
    rw [loop_zero] at h
    simp at h
  | succ fuel ih =>
    intro k log pre post j d row h
    obtain ⟨tail, htail, hnp⟩ := iteration_shape w env ctx k log
    by_cases hd : (w.next k).1 = some .Done
    · rw [loop_brk w env ctx fuel k log ((iteration_brk_iff w env ctx k log).2 hd),
        iteration_done w env ctx k log hd] at h ⊢
      simp only at h
      refine ⟨?_, rfl⟩
      cases pre with
      | nil => exact (by simpa using h.symm : _ ∧ post = []).2
      | cons a pre => simp at h
    · have hx : Effect.next j d (some .Done) row ∉ (iteration w env ctx k log).1 := by
        intro hmem
        rw [htail] at hmem
        simp only [List.mem_cons] at hmem
        rcases hmem with heq | hmem
        · simp only [pulled, Effect.next.injEq] at heq
          exact hd heq.2.2.1.symm
        · have := hnp _ hmem
          simp [Effect.isPull] at this
      rcases hstep : (iteration w env ctx k log).2 with _ | _ | log2
      · exact absurd ((iteration_brk_iff w env ctx k log).1 hstep) hd
      · rw [loop_fatal w env ctx fuel k log hstep] at h
        simp only at h
        exact absurd (by rw [h]; simp) hx
      · rw [loop_continue w env ctx fuel k log log2 hstep] at h ⊢
        simp only at h ⊢
        rcases List.append_eq_append_iff.1 h with ⟨a, ha, hrest⟩ | ⟨c, hc, hrest⟩
        · exact ih (k + 1) log2 a post j d row hrest
        · cases c with
          | nil =>
            simp only [List.nil_append] at hrest
            exact ih (k + 1) log2 [] post j d row (by simpa using hrest.symm)
          | cons y c =>
            simp only [List.cons_append, List.cons.injEq] at hrest
            exact absurd (by rw [hc, ← hrest.1]; simp) hx

/-! ## Lemmas on `main` -/

theorem main_started (w : World) (fuel : Nat) (env : envConfig)
    (he : w.processEnv = .ok env) (hc : w.newClient = none) (hr : w.read = none) :
    main w fuel = finish (loop w env (.NotifyContext .Background) fuel 0 []) := by
  simp only [main, he, hc, hr, finish]
  rfl

/-- Either start-up fails, and the run is fatal with log lines only, or the
run is the loop followed by the deferred calls. -/
theorem main_cases (w : World) (fuel : Nat) :
    ((main w fuel).outcome = .fatal ∧ ∀ x ∈ (main w fuel).trace, Effect.isWork x = false) ∨
    (∃ env, w.processEnv = .ok env ∧ w.newClient = none ∧ w.read = none ∧
      main w fuel = finish (loop w env (.NotifyContext .Background) fuel 0 [])) := by
  cases he : w.processEnv with
  | error err =>
    left
    simp [main, he, Effect.isWork]
  | ok env =>
    cases hc : w.newClient with
    | some err =>
      left
      simp [main, he, hc, Effect.isWork]
    | none =>
      cases hr : w.read with
      | some err =>
        left
        simp [main, he, hc, hr, Effect.isWork]
      | none =>
        right
        exact ⟨env, rfl, rfl, rfl, main_started w fuel env he hc hr⟩

theorem finish_trace_returned (r : Run) (h : r.outcome = .returned) :
    finish r = ⟨r.trace ++ [.close, .cancel], .returned⟩ := by
  simp [finish, h]

theorem finish_not_returned (r : Run) (h : r.outcome ≠ .returned) : finish r = r := by
  rcases r with ⟨t, o⟩
  cases o <;> simp_all [finish]

/-! ## C7: a failing query -/

/-- C7: when executing the query fails (`q.Read` returns an error), `main`
exits through `Fatalf` with status 1 and its trace holds no call of
`it.Next`, of `Publish` or of `Send`. -/
theorem query_failure_is_fatal (w : World) (fuel : Nat) (e : GoError)
    (h : w.read = some e) :
    (main w fuel).outcome = .fatal ∧ (main w fuel).outcome.exitCode = some 1 ∧
      (∀ x ∈ (main w fuel).trace, Effect.isWork x = false) ∧
      pulls (main w fuel).trace = [] ∧ published (main w fuel).trace = [] := by
  rcases main_cases w fuel with ⟨ho, ht⟩ | ⟨env, -, -, hr, -⟩
  · refine ⟨ho, by rw [ho]; rfl, ht, ?_, ?_⟩
    · simp only [pulls, List.filterMap_eq_nil_iff]
      intro x hx
      have := ht x hx
      cases x <;> simp_all [Effect.isWork, Effect.pull?]
    · simp only [published, List.filterMap_eq_nil_iff]
      intro x hx
      have := ht x hx
      cases x <;> simp_all [Effect.isWork, Effect.published?]
  · rw [h] at hr
    cases hr

/-- The run of `queryFailureWorld` exits with status 1 without a pull. -/
theorem query_failure_is_fatal_witness :
    queryFailureWorld.read = some (.other "invalid query") ∧
      (main queryFailureWorld 5).outcome = .fatal ∧
      (main queryFailureWorld 5).outcome.exitCode = some 1 ∧
      (∀ x ∈ (main queryFailureWorld 5).trace, Effect.isWork x = false) ∧
      pulls (main queryFailureWorld 5).trace = [] ∧
      published (main queryFailureWorld 5).trace = [] :=
  ⟨rfl, query_failure_is_fatal queryFailureWorld 5 (.other "invalid query") rfl⟩

/-! ## C9: the retry context -/

/-- C9: whatever the state of the run's context (interrupted or not, when
`Publish` is called or later), the context `Publish` hands to `Send` is not
cancelled by the interrupt signal; every key other than the SDK's own
retry key has the same value in it as in the run's context; and when the
run's context carries no retry parameters of its own, as the one `main`
builds, every value it carries is found in the retry context. -/
theorem publish_retry_context_not_cancelled (w : World) (k : Nat) (interrupted : Bool)
    (ctx : Context) (env : envConfig) (event : Event) (rctx : Context) (d : Bool)
    (ev : Event) (res : Result)
    (hsend : Effect.send rctx d ev res ∈ (Publish w k interrupted ctx env event).1) :
    d = false ∧ (∀ s : Bool, rctx.Done s = false) ∧
      (∀ key, key ≠ Key.retries → rctx.Value key = ctx.Value key) ∧
      (ctx.Value Key.retries = none →
        ∀ key v, ctx.Value key = some v → rctx.Value key = some v) := by
  have hr : rctx = retryContext ctx ∧ d = false := by
    cases hc : w.newClientHTTP (target env) with
    | some err =>
      rw [publish_client_error w k interrupted ctx env event err hc] at hsend
      simp at hsend
    | none =>
      obtain ⟨logs, hlogs, hP⟩ := publish_client_ok w k interrupted ctx env event hc
      rw [hP] at hsend
      simp only [List.mem_cons, Effect.send.injEq] at hsend
      rcases hsend with ⟨h1, h2, -, -⟩ | hmem
      · exact ⟨h1, h2⟩
      · have := hlogs _ hmem
        simp [Effect.isWork] at this
  obtain ⟨rfl, rfl⟩ := hr
  have hval : ∀ key, key ≠ Key.retries → (retryContext ctx).Value key = ctx.Value key := by
    intro key hkey
    simp [retryContext, ContextWithRetriesExponentialBackoff, Context.Value, hkey]
  refine ⟨rfl, fun s => rfl, hval, ?_⟩
  intro hnone key v hv
  by_cases hkey : key = Key.retries
  · subst hkey
    rw [hnone] at hv
    cases hv
  · rw [hval key hkey, hv]

/-- Under a cancelled run context the retry context of `Publish` is not
cancelled and still carries the logger. -/
theorem publish_retry_context_not_cancelled_witness :
    cancelledContext.Done true = true ∧
      (∀ s : Bool, (retryContext cancelledContext).Done s = false) ∧
      (∀ key, key ≠ Key.retries →
        (retryContext cancelledContext).Value key = cancelledContext.Value key) ∧
      (retryContext cancelledContext).Value Key.logger =
        some (.logger [("run", "replay")]) :=
  have h := publish_retry_context_not_cancelled (sampleWorld [] .ACK (fun _ => true)) 0 true
    cancelledContext sampleEnv (sampleEvent "null") (retryContext cancelledContext) false
    (sampleEvent "null") .ACK (List.Mem.head _)
  ⟨rfl, h.2.1, h.2.2.1, h.2.2.2 rfl Key.logger _ rfl⟩

/-! ## C10: end of stream -/

/-- C10: once `it.Next` has returned `iterator.Done`, the only actions that
follow are the deferred `client.Close()` and `cancel()`: no further pull,
no `Publish`, no `Send`; and `main` returns with status 0. -/
theorem no_pull_after_end_of_stream (w : World) (fuel : Nat) (pre post : List Effect)
    (j : Nat) (d : Bool) (row : Row)
    (h : (main w fuel).trace = pre ++ Effect.next j d (some .Done) row :: post) :
    post = [.close, .cancel] ∧ (main w fuel).outcome = .returned ∧
      (main w fuel).outcome.exitCode = some 0 := by
  rcases main_cases w fuel with ⟨-, ht⟩ | ⟨env, -, -, -, hmain⟩
  · have := ht (Effect.next j d (some .Done) row) (by rw [h]; simp)
    simp [Effect.isWork] at this
  · rw [hmain] at h ⊢
    by_cases ho : (loop w env (.NotifyContext .Background) fuel 0 []).outcome = .returned
    · rw [finish_trace_returned _ ho] at h ⊢
      simp only at h
      refine ⟨?_, rfl, rfl⟩
      rcases List.append_eq_append_iff.1 h with ⟨a, -, hrest⟩ | ⟨c, hc, hrest⟩
      · have hmem : Effect.next j d (some .Done) row ∈ [Effect.close, Effect.cancel] := by
          rw [hrest]; simp
        simp at hmem
      · cases c with
        | nil =>
          simp at hrest
        | cons y c =>
          simp only [List.cons_append, List.cons.injEq] at hrest
          obtain ⟨rfl, hpost⟩ := hrest
          have := (loop_after_done w env _ fuel 0 [] pre c j d row hc).1
          subst this
          simpa using hpost
    · rw [finish_not_returned _ ho] at h
      exact absurd (loop_after_done w env _ fuel 0 [] pre post j d row h).2 ho

/-! ## Lemmas on the observers -/

theorem pulls_append (a b : List Effect) : pulls (a ++ b) = pulls a ++ pulls b := by
  simp [pulls, List.filterMap_append]

theorem published_append (a b : List Effect) :
    published (a ++ b) = published a ++ published b := by
  simp [published, List.filterMap_append]

theorem pulls_of_no_work (t : List Effect) (h : ∀ x ∈ t, Effect.isWork x = false) :
    pulls t = [] := by
  simp only [pulls, List.filterMap_eq_nil_iff]
  intro x hx
  have := h x hx
  cases x <;> simp_all [Effect.isWork, Effect.pull?]

theorem published_of_no_work (t : List Effect) (h : ∀ x ∈ t, Effect.isWork x = false) :
    published t = [] := by
  simp only [published, List.filterMap_eq_nil_iff]
  intro x hx
  have := h x hx
  cases x <;> simp_all [Effect.isWork, Effect.published?]

theorem publish_pulls (w : World) (k : Nat) (interrupted : Bool) (ctx : Context)
    (env : envConfig) (event : Event) :
    pulls (Publish w k interrupted ctx env event).1 = [] := by
  simp only [pulls, List.filterMap_eq_nil_iff]
  intro x hx
  have := publish_no_pull w k interrupted ctx env event x hx
  cases x <;> simp_all [Effect.isPull, Effect.pull?]

theorem publish_published (w : World) (k : Nat) (interrupted : Bool) (ctx : Context)
    (env : envConfig) (event : Event) :
    published (Publish w k interrupted ctx env event).1 = [] := by
  cases hc : w.newClientHTTP (target env) with
  | some err =>
    rw [publish_client_error w k interrupted ctx env event err hc]
    rfl
  | none =>
    obtain ⟨logs, hlogs, hP⟩ := publish_client_ok w k interrupted ctx env event hc
    rw [hP]
    exact published_of_no_work logs hlogs

/-- The result of `Publish` is decided by the construction of the client. -/
theorem publish_result (w : World) (k : Nat) (interrupted : Bool) (ctx : Context)
    (env : envConfig) (event : Event) :
    (Publish w k interrupted ctx env event).2 =
      match w.newClientHTTP (target env) with
      | some _ => none
      | none => some none := by
  cases hc : w.newClientHTTP (target env) with
  | some err => rw [publish_client_error w k interrupted ctx env event err hc]
  | none =>
    obtain ⟨logs, -, hP⟩ := publish_client_ok w k interrupted ctx env event hc
    rw [hP]

theorem iteration_summary (w : World) (env : envConfig) (ctx : Context) (k : Nat)
    (log : Logger) :
    (pulls (iteration w env ctx k log).1, published (iteration w env ctx k log).1,
      (iteration w env ctx k log).2) = passSummary w env k log := by
  by_cases hd : (w.next k).1 = some .Done
  · rw [iteration_done w env ctx k log hd]
    simp [passSummary, hd, pulls, published, pulled, Effect.pull?, Effect.published?]
  · cases hm : w.marshal (w.next k).2 with
    | error e =>
      rw [iteration_marshal_error w env ctx k log e hd hm]
      have h1 := pulls_of_no_work _ (rowLogs_isWork w k log)
      have h2 := published_of_no_work _ (rowLogs_isWork w k log)
      simp only [passSummary, hd, hm, if_false, List.cons_append, pulls_append,
        published_append]
      simp only [pulls, published] at h1 h2 ⊢
      simp [List.filterMap_cons, List.filterMap_append, h1, h2, pulled, Effect.pull?,
        Effect.published?]
    | ok body =>
      have h1 := pulls_of_no_work _ (rowLogs_isWork w k log)
      have h2 := published_of_no_work _ (rowLogs_isWork w k log)
      have h3 := pulls_of_no_work _ (bodyLogs_isWork env log body)
      have h4 := published_of_no_work _ (bodyLogs_isWork env log body)
      cases hs : w.setData ApplicationJSON body with
      | some e =>
        rw [iteration_setData_error w env ctx k log body e hd hm hs]
        simp only [passSummary, hd, hm, hs, if_false]
        simp only [pulls, published] at h1 h2 h3 h4 ⊢
        simp [List.filterMap_cons, List.filterMap_append, h1, h2, h3, h4, pulled,
          Effect.pull?, Effect.published?]
      | none =>
        rw [iteration_publish w env ctx k log body hd hm hs]
        have h5 := publish_pulls w k (w.interrupted k) ctx env (envelope w env body)
        have h6 := publish_published w k (w.interrupted k) ctx env (envelope w env body)
        have h7 := publish_result w k (w.interrupted k) ctx env (envelope w env body)
        simp only [passSummary, hd, hm, hs, if_false, h7]
        simp only [pulls, published] at h1 h2 h3 h4 h5 h6 ⊢
        cases hc : w.newClientHTTP (target env) <;>
        simp [List.filterMap_cons, List.filterMap_append, h1, h2, h3, h4, h5, h6, pulled,
          Effect.pull?, Effect.published?]

/-! ## C6: a row that cannot be serialized -/

theorem iteration_congr_marshal (w : World) (env : envConfig) (ctx : Context) (k : Nat)
    (log : Logger) (m2 : Row → Except GoError Body)
    (h : (w.next k).1 = some .Done ∨ ∃ body, w.marshal (w.next k).2 = .ok body ∧
      m2 (w.next k).2 = .ok body) :
    iteration { w with marshal := m2 } env ctx k log = iteration w env ctx k log := by
  by_cases hd : (w.next k).1 = some .Done
  · rw [iteration_done w env ctx k log hd, iteration_done _ env ctx k log (by exact hd)]
    rfl
  · rcases h with h | ⟨body, hm, hm2⟩
    · exact absurd h hd
    · cases hs : w.setData ApplicationJSON body with
      | some e =>
        rw [iteration_setData_error w env ctx k log body e hd hm hs,
          iteration_setData_error { w with marshal := m2 } env ctx k log body e
            (by exact hd) (by exact hm2) (by exact hs)]
        rfl
      | none =>
        rw [iteration_publish w env ctx k log body hd hm hs,
          iteration_publish { w with marshal := m2 } env ctx k log body
            (by exact hd) (by exact hm2) (by exact hs)]
        rfl

/-- In the loop, a pulled row whose serialization fails ends the run
fatally right there, and everything done before it is also done by a run
whose serializer accepts at least the same rows. -/
theorem loop_marshal_failure (w : World) (env : envConfig) (ctx : Context) :
    ∀ (fuel k : Nat) (log : Logger) (j : Nat) (d : Bool) (err : Option GoError) (row : Row)
      (e : GoError),
      Effect.next j d err row ∈ (loop w env ctx fuel k log).trace →
      err ≠ some .Done → w.marshal row = .error e →
      (loop w env ctx fuel k log).outcome = .fatal ∧
      ∃ pre logs, (loop w env ctx fuel k log).trace = pre ++ Effect.next j d err row :: logs ∧
        (∀ x ∈ logs, Effect.isWork x = false) ∧
        ∀ m2 : Row → Except GoError Body, (∀ r b, w.marshal r = .ok b → m2 r = .ok b) →
          pre <+: (loop { w with marshal := m2 } env ctx fuel k log).trace := by
  intro fuel
  induction fuel with
  | zero =>
    intro k log j d err row e hmem
    rw [loop_zero] at hmem
    simp at hmem
  | succ fuel ih =>
    intro k log j d err row e hmem herr hfail
    obtain ⟨tail, htail, hnp⟩ := iteration_shape w env ctx k log
    have hhead : Effect.next j d err row ∈ (iteration w env ctx k log).1 →
        Effect.next j d err row = pulled w ctx k := by
      intro hx
      rw [htail] at hx
      simp only [List.mem_cons] at hx
      rcases hx with hx | hx
      · exact hx
      · have := hnp _ hx
        simp [Effect.isPull] at this
    by_cases hd : (w.next k).1 = some .Done
    · rw [loop_brk w env ctx fuel k log ((iteration_brk_iff w env ctx k log).2 hd)] at hmem
      have := hhead hmem
      simp only [pulled, Effect.next.injEq] at this
      exact absurd (this.2.2.1.trans hd) herr
    · cases hm : w.marshal (w.next k).2 with
      | error e0 =>
        have hit := iteration_marshal_error w env ctx k log e0 hd hm
        have hstep : (iteration w env ctx k log).2 = .fatal := by rw [hit]
        rw [loop_fatal w env ctx fuel k log hstep] at hmem ⊢
        have hx := hhead hmem
        refine ⟨rfl, [], rowLogs w k log ++ [.log log .fatal (.marshalingRow e0)], ?_, ?_, ?_⟩
        · rw [hx, hit]
          rfl
        · intro x hx
          simp only [List.mem_append, List.mem_singleton] at hx
          rcases hx with hx | rfl
          · exact rowLogs_isWork _ _ _ x hx
          · rfl
        · intro m2 _
          exact ⟨_, rfl⟩
      | ok body =>
        have hnot : Effect.next j d err row ∉ (iteration w env ctx k log).1 := by
          intro hx
          have := hhead hx
          simp only [pulled, Effect.next.injEq] at this
          rw [this.2.2.2, hm] at hfail
          cases hfail
        rcases hstep : (iteration w env ctx k log).2 with _ | _ | log2
        · exact absurd ((iteration_brk_iff w env ctx k log).1 hstep) hd
        · rw [loop_fatal w env ctx fuel k log hstep] at hmem
          exact absurd hmem hnot
        · rw [loop_continue w env ctx fuel k log log2 hstep] at hmem ⊢
          simp only [List.mem_append] at hmem
          rcases hmem with hmem | hmem
          · exact absurd hmem hnot
          · obtain ⟨ho, pre, logs, htrace, hlogs, hpre⟩ :=
              ih (k + 1) log2 j d err row e hmem herr hfail
            refine ⟨ho, (iteration w env ctx k log).1 ++ pre, logs, ?_, hlogs, ?_⟩
            · simp only [htrace, List.append_assoc]
            · intro m2 hm2
              have hcongr := iteration_congr_marshal w env ctx k log m2
                (Or.inr ⟨body, hm, hm2 _ _ hm⟩)
              have hstep2 : (iteration { w with marshal := m2 } env ctx k log).2 =
                  .continue log2 := by rw [hcongr, hstep]
              rw [loop_continue _ env ctx fuel k log log2 hstep2, hcongr]
              obtain ⟨t, ht⟩ := hpre m2 hm2
              exact ⟨t, by rw [List.append_assoc, ht]⟩

theorem finish_trace_extends (r : Run) : r.trace <+: (finish r).trace := by
  rcases r with ⟨t, o⟩
  cases o <;> simp [finish]

theorem mem_finish_trace (r : Run) (x : Effect) (hx : Effect.isPull x = true)
    (h : x ∈ (finish r).trace) : x ∈ r.trace := by
  rcases r with ⟨t, o⟩
  cases o <;> simp [finish] at h ⊢
  · rcases h with h | rfl | rfl
    · exact h
    · cases hx
    · cases hx
  · exact h
  · exact h

/-- C6: if a row has been pulled (the trace holds the call of `it.Next` that
delivered it, which did not report `iterator.Done`) and `json.Marshal`
fails on it, the run exits through `Fatalf` with status 1; after that pull
only log lines follow (no `Publish`, no `Send`, no further pull); and
everything done before that pull is a prefix of what the run does when the
serializer accepts at least the same rows, so the earlier rows were
dispatched exactly as without the failure. -/
theorem serialization_failure_is_fatal (w : World) (fuel j : Nat) (d : Bool)
    (err : Option GoError) (row : Row) (e : GoError)
    (hpull : Effect.next j d err row ∈ (main w fuel).trace)
    (herr : err ≠ some .Done) (hfail : w.marshal row = .error e) :
    (main w fuel).outcome = .fatal ∧ (main w fuel).outcome.exitCode = some 1 ∧
      ∃ pre logs, (main w fuel).trace = pre ++ Effect.next j d err row :: logs ∧
        (∀ x ∈ logs, Effect.isWork x = false) ∧
        ∀ m2 : Row → Except GoError Body, (∀ r b, w.marshal r = .ok b → m2 r = .ok b) →
          pre <+: (main { w with marshal := m2 } fuel).trace := by
  rcases main_cases w fuel with ⟨-, ht⟩ | ⟨env, he, hc, hr, hmain⟩
  · have := ht _ hpull
    simp [Effect.isWork] at this
  · rw [hmain] at hpull ⊢
    have hmem := mem_finish_trace _ (Effect.next j d err row) rfl hpull
    obtain ⟨ho, pre, logs, htrace, hlogs, hpre⟩ :=
      loop_marshal_failure w env _ fuel 0 [] j d err row e hmem herr hfail
    have hfin := finish_not_returned (loop w env (.NotifyContext .Background) fuel 0 [])
      (by rw [ho]; decide)
    rw [hfin]
    refine ⟨ho, by rw [ho]; rfl, pre, logs, htrace, hlogs, ?_⟩
    intro m2 hm2
    rw [main_started { w with marshal := m2 } fuel env (by exact he) (by exact hc)
      (by exact hr)]
    exact (hpre m2 hm2).trans (finish_trace_extends _)

/-! ## C2: every row is published once, in order -/

/-- From the k-th pull on: when the reader yields the rows of `rb` and then
`iterator.Done`, each row serializes to its body, `SetData` accepts it and
the client can be built, the loop returns and publishes one envelope per
row, in order. -/
theorem loop_rows (w : World) (env : envConfig) (ctx : Context)
    (hclient : w.newClientHTTP (target env) = none) :
    ∀ (rb : List (Row × Body)) (k : Nat) (log : Logger) (fuel : Nat),
      (∀ i (h : i < rb.length), w.next (k + i) = (none, (rb.get ⟨i, h⟩).1) ∧
        w.marshal (rb.get ⟨i, h⟩).1 = .ok (rb.get ⟨i, h⟩).2 ∧
        w.setData ApplicationJSON (rb.get ⟨i, h⟩).2 = none) →
      (w.next (k + rb.length)).1 = some .Done →
      rb.length < fuel →
      (loop w env ctx fuel k log).outcome = .returned ∧
        published (loop w env ctx fuel k log).trace = rb.map (fun p => envelope w env p.2) ∧
        (pulls (loop w env ctx fuel k log).trace).length = rb.length + 1 := by
  intro rb
  induction rb with
  | nil =>
    intro k log fuel _ hdone hfuel
    obtain ⟨fuel, rfl⟩ : ∃ f, fuel = f + 1 := ⟨fuel - 1, by simp at hfuel; omega⟩
    simp only [List.length_nil, Nat.add_zero] at hdone
    have hs := iteration_summary w env ctx k log
    simp only [passSummary, hdone, if_true, Prod.mk.injEq] at hs
    rw [loop_brk w env ctx fuel k log hs.2.2]
    simp [hs.1, hs.2.1]
  | cons p rb ih =>
    intro k log fuel hrows hdone hfuel
    obtain ⟨fuel, rfl⟩ : ∃ f, fuel = f + 1 := ⟨fuel - 1, by simp at hfuel; omega⟩
    have h0 := hrows 0 (by simp)
    simp only [Nat.add_zero, List.get_eq_getElem, List.getElem_cons_zero] at h0
    obtain ⟨hnext, hm, hs⟩ := h0
    have hsum := iteration_summary w env ctx k log
    simp only [passSummary, hnext, hm, hs, hclient, reduceCtorEq, if_false] at hsum
    simp only [Prod.mk.injEq] at hsum
    rw [loop_continue w env ctx fuel k log _ hsum.2.2]
    have hrest := ih (k + 1) (log ++ [("event-type", env.EventType)]) fuel
      (by
        intro i h
        have := hrows (i + 1) (by simp; omega)
        simpa [Nat.add_assoc, Nat.add_comm 1 i] using this)
      (by simpa [Nat.add_assoc, Nat.add_comm 1] using hdone)
      (by simp at hfuel; omega)
    refine ⟨hrest.1, ?_, ?_⟩
    · simp only [published_append, hsum.2.1, hrest.2.1, List.map_cons, List.singleton_append]
    · simp only [pulls_append, hsum.1, hrest.2.2, List.length_append, List.length_cons,
        List.length_nil]
      omega

/-- C2 (as amended): in a run whose start-up succeeds, when the reader
yields n rows and then `iterator.Done`, every row serializes, `SetData`
accepts every body and the CloudEvents client can be built for the
configured target, `main` returns after calling `Publish` exactly n times,
in pull order, and the i-th event has as type the configured type with its
surrounding white space trimmed, as source the normal form of the
configured source as a URI reference (the empty source when it is none),
the media type `application/json` and the serialization of the i-th row as
data. -/
theorem all_rows_published (w : World) (fuel : Nat) (env : envConfig)
    (rb : List (Row × Body))
    (he : w.processEnv = .ok env) (hc : w.newClient = none) (hr : w.read = none)
    (hrows : ∀ i (h : i < rb.length), w.next i = (none, (rb.get ⟨i, h⟩).1) ∧
      w.marshal (rb.get ⟨i, h⟩).1 = .ok (rb.get ⟨i, h⟩).2 ∧
      w.setData "application/json" (rb.get ⟨i, h⟩).2 = none)
    (hdone : (w.next rb.length).1 = some .Done)
    (hclient : w.newClientHTTP (env.Host ++ ":" ++ toString env.Port) = none)
    (hfuel : rb.length < fuel) :
    (main w fuel).outcome = .returned ∧
      published (main w fuel).trace = rb.map (fun p =>
        { specversion := "1.0", type := TrimSpace env.EventType,
          source := (match w.parseURIRef env.EventSource with
            | some u => u
            | none => ""),
          id := "", datacontenttype := some "application/json", data := some p.2 }) ∧
      (published (main w fuel).trace).length = rb.length ∧
      (pulls (main w fuel).trace).length = rb.length + 1 := by
  obtain ⟨ho, hp, hl⟩ := loop_rows w env (.NotifyContext .Background) hclient rb 0 [] fuel
    (by simpa using hrows) (by simpa using hdone) hfuel
  rw [main_started w fuel env he hc hr, finish_trace_returned _ ho]
  have hcl : published [Effect.close, Effect.cancel] = [] := rfl
  have hcl2 : pulls [Effect.close, Effect.cancel] = [] := rfl
  refine ⟨rfl, ?_, ?_, ?_⟩
  · simp only [published_append, hp, hcl, List.append_nil, envelope_fields]
  · simp only [published_append, hp, hcl, List.append_nil, List.length_map]
  · simp only [pulls_append, hl, hcl2, List.append_nil]

/-- Scenario A: three rows are published as three envelopes. -/
theorem all_rows_published_witness :
    (main scenarioA 4).outcome = .returned ∧
      published (main scenarioA 4).trace =
        [sampleEvent "\x7b\"a\":1\x7d", sampleEvent "\x7b\"a\":2\x7d",
         sampleEvent "\x7b\"a\":3\x7d"] ∧
      (published (main scenarioA 4).trace).length = 3 ∧
      (pulls (main scenarioA 4).trace).length = 4 :=
  all_rows_published scenarioA 4 sampleEnv
    [(rowA 1, "\x7b\"a\":1\x7d"), (rowA 2, "\x7b\"a\":2\x7d"), (rowA 3, "\x7b\"a\":3\x7d")]
    rfl rfl rfl
    (by
      intro i h
      have h3 : i < 3 := h
      interval_cases i <;> exact ⟨rfl, rfl, rfl⟩)
    rfl rfl (by decide)

/-- C2 (counterexample): first, one row is read and serialized successfully
under the configured type ` spaced.type ` and source `%zz`; the event
handed to `Publish` has the type `spaced.type` and an empty source, not the
configured strings.  Second, two rows are read and serialized successfully,
but the client cannot be built for the target; `Publish` is called once,
not twice, the second row is never pulled and the run is fatal. -/
theorem all_rows_published_counterexample :
    (spacedTypeWorld.processEnv =
        .ok { sampleEnv with EventType := " spaced.type ", EventSource := "%zz" } ∧
      spacedTypeWorld.next 0 = (none, rowA 1) ∧ (spacedTypeWorld.next 1).1 = some .Done ∧
      spacedTypeWorld.marshal (rowA 1) = .ok "\x7b\"a\":1\x7d" ∧
      published (main spacedTypeWorld 5).trace =
        [{ specversion := "1.0", type := "spaced.type", source := "", id := "",
           datacontenttype := some "application/json", data := some "\x7b\"a\":1\x7d" }] ∧
      (main spacedTypeWorld 5).outcome = .returned) ∧
    (badTargetWorld.next 0 = (none, rowA 1) ∧ badTargetWorld.next 1 = (none, rowA 2) ∧
      (badTargetWorld.next 2).1 = some .Done ∧
      badTargetWorld.marshal (rowA 1) = .ok "\x7b\"a\":1\x7d" ∧
      badTargetWorld.marshal (rowA 2) = .ok "\x7b\"a\":2\x7d") ∧
    published (main badTargetWorld 5).trace = [sampleEvent "\x7b\"a\":1\x7d"] ∧
    pulls (main badTargetWorld 5).trace = [(0, none, rowA 1)] ∧
    (main badTargetWorld 5).outcome = .fatal :=
  ⟨⟨rfl, rfl, rfl, rfl, rfl, rfl⟩, ⟨rfl, rfl, rfl, rfl, rfl⟩, rfl, rfl, rfl⟩

/-! ## C4: delivery failures do not stop the run -/

/-- Two runs whose passes pull and publish the same and end the same way
pull and publish the same overall and end the same way. -/
theorem loop_congr_summary (w w2 : World) (env : envConfig) (ctx : Context)
    (h : ∀ k log, passSummary w2 env k log = passSummary w env k log) :
    ∀ (fuel k : Nat) (log : Logger),
      (loop w2 env ctx fuel k log).outcome = (loop w env ctx fuel k log).outcome ∧
      pulls (loop w2 env ctx fuel k log).trace = pulls (loop w env ctx fuel k log).trace ∧
      published (loop w2 env ctx fuel k log).trace =
        published (loop w env ctx fuel k log).trace := by
  intro fuel
  induction fuel with
  | zero => intro k log; exact ⟨rfl, rfl, rfl⟩
  | succ fuel ih =>
    intro k log
    have h1 := iteration_summary w env ctx k log
    have h2 := iteration_summary w2 env ctx k log
    rw [h k log, ← h1] at h2
    simp only [Prod.mk.injEq] at h2
    obtain ⟨hp, hq, hs⟩ := h2
    rcases hstep : (iteration w env ctx k log).2 with _ | _ | log2
    · rw [loop_brk w env ctx fuel k log hstep, loop_brk w2 env ctx fuel k log (hs.trans hstep)]
      exact ⟨rfl, hp, hq⟩
    · rw [loop_fatal w env ctx fuel k log hstep,
        loop_fatal w2 env ctx fuel k log (hs.trans hstep)]
      exact ⟨rfl, hp, hq⟩
    · rw [loop_continue w env ctx fuel k log log2 hstep,
        loop_continue w2 env ctx fuel k log log2 (hs.trans hstep)]
      obtain ⟨io, ip, iq⟩ := ih (k + 1) log2
      refine ⟨io, ?_, ?_⟩
      · simp only [pulls_append, hp, ip]
      · simp only [published_append, hq, iq]

theorem finish_outcome (r : Run) : (finish r).outcome = r.outcome := by
  rcases r with ⟨t, o⟩
  cases o <;> rfl

theorem finish_pulls (r : Run) : pulls (finish r).trace = pulls r.trace := by
  rcases r with ⟨t, o⟩
  cases o <;> simp [finish, pulls, Effect.pull?]

theorem finish_published (r : Run) : published (finish r).trace = published r.trace := by
  rcases r with ⟨t, o⟩
  cases o <;> simp [finish, published, Effect.published?]

theorem send_not_mem_of_no_work (t : List Effect) (h : ∀ x ∈ t, Effect.isWork x = false)
    (rctx : Context) (d : Bool) (ev : Event) (res : Result) :
    Effect.send rctx d ev res ∉ t := by
  intro hx
  have := h _ hx
  simp [Effect.isWork] at this

/-- A pass that sends an event has built the client and continues the loop. -/
theorem iteration_send (w : World) (env : envConfig) (ctx : Context) (k : Nat)
    (log : Logger) (rctx : Context) (d : Bool) (ev : Event) (res : Result)
    (hsend : Effect.send rctx d ev res ∈ (iteration w env ctx k log).1) :
    w.newClientHTTP (target env) = none ∧
      (iteration w env ctx k log).2 = .continue (log ++ [("event-type", env.EventType)]) := by
  have hrow := send_not_mem_of_no_work _ (rowLogs_isWork w k log) rctx d ev res
  by_cases hd : (w.next k).1 = some .Done
  · rw [iteration_done w env ctx k log hd] at hsend
    simp [pulled] at hsend
  · cases hm : w.marshal (w.next k).2 with
    | error e =>
      rw [iteration_marshal_error w env ctx k log e hd hm] at hsend
      simp [pulled, hrow] at hsend
    | ok body =>
      have hbody := send_not_mem_of_no_work _ (bodyLogs_isWork env log body) rctx d ev res
      cases hs : w.setData ApplicationJSON body with
      | some e =>
        rw [iteration_setData_error w env ctx k log body e hd hm hs] at hsend
        simp [pulled, hrow, hbody] at hsend
      | none =>
        rw [iteration_publish w env ctx k log body hd hm hs] at hsend ⊢
        cases hc : w.newClientHTTP (target env) with
        | some err =>
          rw [publish_client_error w k _ ctx env _ err hc] at hsend
          simp [pulled, hrow, hbody] at hsend
        | none =>
          rw [publish_result, hc]
          exact ⟨rfl, rfl⟩

/-- With fuel left, the first action of the loop is its pull. -/
theorem loop_head (w : World) (env : envConfig) (ctx : Context) (fuel k : Nat)
    (log : Logger) :
    ∃ rest, (loop w env ctx (fuel + 1) k log).trace = pulled w ctx k :: rest := by
  obtain ⟨tail, htail, -⟩ := iteration_shape w env ctx k log
  rcases hstep : (iteration w env ctx k log).2 with _ | _ | log2
  · exact ⟨tail, by rw [loop_brk w env ctx fuel k log hstep, htail]⟩
  · exact ⟨tail, by rw [loop_fatal w env ctx fuel k log hstep, htail]⟩
  · exact ⟨tail ++ (loop w env ctx fuel (k + 1) log2).trace,
      by rw [loop_continue w env ctx fuel k log log2 hstep, htail]; rfl⟩

/-- Two runs that start up alike and whose passes pull and publish the
same pull and publish the same overall and end the same way. -/
theorem main_congr_summary (w w2 : World) (he : w2.processEnv = w.processEnv)
    (hc : w2.newClient = w.newClient) (hr : w2.read = w.read)
    (h : ∀ env k log, passSummary w2 env k log = passSummary w env k log) (fuel : Nat) :
    (main w2 fuel).outcome = (main w fuel).outcome ∧
      pulls (main w2 fuel).trace = pulls (main w fuel).trace ∧
      published (main w2 fuel).trace = published (main w fuel).trace := by
  cases he1 : w.processEnv with
  | error err =>
    rw [he1] at he
    simp [main, he, he1, pulls, published, Effect.pull?, Effect.published?]
  | ok env =>
    rw [he1] at he
    cases hc1 : w.newClient with
    | some err =>
      rw [hc1] at hc
      simp [main, he, he1, hc, hc1, pulls, published, Effect.pull?, Effect.published?]
    | none =>
      rw [hc1] at hc
      cases hr1 : w.read with
      | some err =>
        rw [hr1] at hr
        simp [main, he, he1, hc, hc1, hr, hr1, pulls, published, Effect.pull?,
          Effect.published?]
      | none =>
        rw [hr1] at hr
        rw [main_started w fuel env he1 hc1 hr1, main_started w2 fuel env he hc hr]
        obtain ⟨io, ip, iq⟩ := loop_congr_summary w w2 env
          (.NotifyContext .Background) (h env) fuel 0 []
        refine ⟨?_, ?_, ?_⟩
        · rw [finish_outcome, finish_outcome, io]
        · rw [finish_pulls, finish_pulls, ip]
        · rw [finish_published, finish_published, iq]

/-- C4: whenever a pass of the loop has sent an event and got a result
back, whatever the result, `Publish` has returned a nil error, the pass
ends by continuing the loop, and the next action of the loop is the next
pull.  Moreover the rows pulled, the events handed to `Publish` and the way
the run ends do not depend on the results of the sends at all. -/
theorem delivery_failure_does_not_stop_the_run (w : World) (env : envConfig)
    (ctx : Context) (k : Nat) (log : Logger) (rctx : Context) (d : Bool) (ev : Event)
    (res : Result)
    (hsend : Effect.send rctx d ev res ∈ (iteration w env ctx k log).1) :
    (Publish w k (w.interrupted k) ctx env ev).2 = some none ∧
      (∃ log2, (iteration w env ctx k log).2 = .continue log2 ∧
        ∀ fuel, ∃ rest, (loop w env ctx (fuel + 2) k log).trace =
          (iteration w env ctx k log).1 ++ pulled w ctx (k + 1) :: rest) ∧
      ∀ (fuel : Nat) (send2 : Nat → Context → Bool → Event → Result),
        (main { w with send := send2 } fuel).outcome = (main w fuel).outcome ∧
        pulls (main { w with send := send2 } fuel).trace = pulls (main w fuel).trace ∧
        published (main { w with send := send2 } fuel).trace =
          published (main w fuel).trace := by
  obtain ⟨hc, hstep⟩ := iteration_send w env ctx k log rctx d ev res hsend
  refine ⟨by rw [publish_result, hc], ⟨_, hstep, ?_⟩, ?_⟩
  · intro fuel
    obtain ⟨rest, hrest⟩ := loop_head w env ctx fuel (k + 1)
      (log ++ [("event-type", env.EventType)])
    exact ⟨rest, by rw [loop_continue w env ctx (fuel + 1) k log _ hstep, hrest]⟩
  · intro fuel send2
    exact main_congr_summary w { w with send := send2 } rfl rfl rfl (fun _ _ _ => rfl) fuel

/-! ## C8: cancellation and the loop -/

/-- With the reader of `cancelledReaderWorld` every pass continues the
loop, so the loop is still running whatever the fuel. -/
theorem loop_cancelled_reader (ctx : Context) :
    ∀ (fuel k : Nat) (log : Logger),
      (loop cancelledReaderWorld sampleEnv ctx fuel k log).outcome = .running := by
  intro fuel
  induction fuel with
  | zero => intro k log; rfl
  | succ fuel ih =>
    intro k log
    have hstep : ∃ log2,
        (iteration cancelledReaderWorld sampleEnv ctx k log).2 = .continue log2 := by
      have hs := iteration_summary cancelledReaderWorld sampleEnv ctx k log
      by_cases hk : k = 0
      · subst hk
        simp [passSummary, cancelledReaderWorld, sampleWorld, sampleMarshal, rowA] at hs
        exact ⟨_, hs.2.2⟩
      · simp [passSummary, cancelledReaderWorld, sampleWorld, sampleMarshal, hk] at hs
        exact ⟨_, hs.2.2⟩
    obtain ⟨log2, h2⟩ := hstep
    rw [loop_continue cancelledReaderWorld sampleEnv ctx fuel k log log2 h2]
    exact ih (k + 1) log2

/-- C8 (the code at the failing inputs): first, the interrupt has arrived
before the first pull and the reader still holds two rows; `main` calls
`it.Next` three times under the cancelled context and publishes both rows.
Second, the interrupt arrives after the first pull and the reader answers
every later pull with `context canceled`; each such pull is logged and
followed by a published `null` envelope and a further pull, and the loop is
still running whatever the fuel: the run never ends. -/
theorem cancelled_run_keeps_pulling :
    ((Context.NotifyContext .Background).Done (interruptedWorld.interrupted 0) = true ∧
      pullsAfterCancel (main interruptedWorld 5).trace = [0, 1, 2] ∧
      published (main interruptedWorld 5).trace =
        [sampleEvent "\x7b\"a\":1\x7d", sampleEvent "\x7b\"a\":2\x7d"]) ∧
    (pullsAfterCancel (main cancelledReaderWorld 4).trace = [1, 2, 3] ∧
      published (main cancelledReaderWorld 4).trace =
        [sampleEvent "\x7b\"a\":1\x7d", sampleEvent "null", sampleEvent "null",
         sampleEvent "null"] ∧
      ∀ fuel, (main cancelledReaderWorld fuel).outcome = .running) := by
  refine ⟨⟨rfl, rfl, rfl⟩, rfl, rfl, ?_⟩
  intro fuel
  rw [main_started cancelledReaderWorld fuel sampleEnv rfl rfl rfl, finish_outcome]
  exact loop_cancelled_reader _ fuel 0 []

/-! ## C1: a row that cannot be read -/

/-- C1 (the code at the failing input): the first call of `it.Next` returns
a read error and leaves the row nil, the second reports `iterator.Done`.
The run logs the error and then goes on with the same pass: it serializes
the nil row, builds an envelope with data `null` and hands it to `Publish`
and `Send`. -/
theorem read_error_row_is_published :
    pulls (main readErrorWorld 5).trace =
        [(0, some (.other "read failed"), none), (1, some .Done, none)] ∧
      published (main readErrorWorld 5).trace = [sampleEvent "null"] ∧
      sent (main readErrorWorld 5).trace = [(sampleEvent "null", .ACK)] ∧
      (main readErrorWorld 5).outcome = .returned :=
  ⟨rfl, rfl, rfl, rfl⟩

/-! ## Witnesses -/

/-- In scenario B the only send is undelivered; the pass continues and the
run returns. -/
theorem delivery_failure_does_not_stop_the_run_witness :
    (Publish scenarioB 0 false (.NotifyContext .Background) sampleEnv
        (sampleEvent "\x7b\"a\":1\x7d")).2 = some none ∧
      (∃ log2, (iteration scenarioB sampleEnv (.NotifyContext .Background) 0 []).2 =
          .continue log2 ∧
        ∀ fuel, ∃ rest, (loop scenarioB sampleEnv (.NotifyContext .Background)
            (fuel + 2) 0 []).trace =
          (iteration scenarioB sampleEnv (.NotifyContext .Background) 0 []).1 ++
            pulled scenarioB (.NotifyContext .Background) 1 :: rest) ∧
      ∀ (fuel : Nat) (send2 : Nat → Context → Bool → Event → Result),
        (main { scenarioB with send := send2 } fuel).outcome = (main scenarioB fuel).outcome ∧
        pulls (main { scenarioB with send := send2 } fuel).trace =
          pulls (main scenarioB fuel).trace ∧
        published (main { scenarioB with send := send2 } fuel).trace =
          published (main scenarioB fuel).trace :=
  delivery_failure_does_not_stop_the_run scenarioB sampleEnv (.NotifyContext .Background) 0 []
    (retryContext (.NotifyContext .Background)) false (sampleEvent "\x7b\"a\":1\x7d")
    .Undelivered
    (List.Mem.tail _ (List.Mem.tail _ (List.Mem.tail _ (List.Mem.tail _ (List.Mem.tail _
      (List.Mem.head _))))))

/-- A row that cannot be serialized after one that can: the run is fatal at
the second pull, and the first row is published as in the run without the
failure. -/
theorem serialization_failure_is_fatal_witness :
    (main badRowWorld 5).outcome = .fatal ∧ (main badRowWorld 5).outcome.exitCode = some 1 ∧
      ∃ pre logs, (main badRowWorld 5).trace = pre ++ Effect.next 1 false none rowBad :: logs ∧
        (∀ x ∈ logs, Effect.isWork x = false) ∧
        ∀ m2 : Row → Except GoError Body,
          (∀ r b, badRowWorld.marshal r = .ok b → m2 r = .ok b) →
          pre <+: (main { badRowWorld with marshal := m2 } 5).trace :=
  serialization_failure_is_fatal badRowWorld 5 1 false none rowBad
    (.other "json: unsupported value")
    (List.Mem.tail _ (List.Mem.tail _ (List.Mem.tail _ (List.Mem.tail _ (List.Mem.tail _
      (List.Mem.tail _ (List.Mem.head _)))))))
    (by decide) rfl

/-- With one row, the pull that reports the end of the stream is followed
only by the deferred calls. -/
theorem no_pull_after_end_of_stream_witness :
    (main oneRowWorld 5).trace =
        (main oneRowWorld 5).trace.take 6 ++ Effect.next 1 false (some .Done) none ::
          (main oneRowWorld 5).trace.drop 7 ∧
      (main oneRowWorld 5).trace.drop 7 = [.close, .cancel] ∧
      (main oneRowWorld 5).outcome = .returned ∧
      (main oneRowWorld 5).outcome.exitCode = some 0 :=
  ⟨rfl, no_pull_after_end_of_stream oneRowWorld 5 ((main oneRowWorld 5).trace.take 6)
    ((main oneRowWorld 5).trace.drop 7) 1 false none rfl⟩

end DejavuBq
